import Mathlib

/-!
Shallow embedding of `src/app.py` (a Flask app recording, per user and day of an
ISO week, one of three work locations) together with the parts of CPython's
`datetime.date` that the app calls.

Conventions of the embedding:
* Python `int` is `Int`; Python `//` and `%` (floor semantics) are Lean's `/`
  and `%` on `Int` (Euclidean), which agree with floor division for the
  positive divisors used throughout.
* A `datetime.date` is represented by its proleptic-Gregorian ordinal
  (`date.toordinal()`, day 1 = 0001-01-01), as in CPython's pure-Python
  implementation; the valid range is 1 .. 3652059 (0001-01-01 .. 9999-12-31).
* Fallible Python operations (constructors raising `ValueError`, date
  arithmetic raising `OverflowError`) return `Option`.
* The SQLAlchemy table `work_selections` is a list of rows in insertion order;
  `s.scalar(select(...))` is `List.find?` (first match), a dict built by
  comprehension is an association list where the *last* binding wins, and
  Werkzeug's `request.form.get` is `List.lookup` (first match).
-/

namespace SpecApp

/-! ### CPython `datetime` internals (pure-Python reference implementation) -/

/-- `datetime._is_leap`: Gregorian leap-year test. -/
def isLeap (y : Int) : Bool :=
  y % 4 == 0 && (y % 100 != 0 || y % 400 == 0)

/-- `datetime._DAYS_BEFORE_MONTH[m]` (index 0 is a `-1` sentinel). -/
def daysBeforeMonthTable (m : Int) : Int :=
  if m = 1 then 0 else if m = 2 then 31 else if m = 3 then 59 else if m = 4 then 90
  else if m = 5 then 120 else if m = 6 then 151 else if m = 7 then 181
  else if m = 8 then 212 else if m = 9 then 243 else if m = 10 then 273
  else if m = 11 then 304 else if m = 12 then 334 else -1

/-- `datetime._DAYS_IN_MONTH[m]` (index 0 is a `-1` sentinel). -/
def daysInMonthTable (m : Int) : Int :=
  if m = 1 then 31 else if m = 2 then 28 else if m = 3 then 31 else if m = 4 then 30
  else if m = 5 then 31 else if m = 6 then 30 else if m = 7 then 31
  else if m = 8 then 31 else if m = 9 then 30 else if m = 10 then 31
  else if m = 11 then 30 else if m = 12 then 31 else -1

/-- `datetime._days_in_month(year, month)`. -/
def daysInMonth (y m : Int) : Int :=
  if m = 2 ∧ isLeap y then 29 else daysInMonthTable m

/-- `datetime._days_before_month(year, month)`. -/
def daysBeforeMonth (y m : Int) : Int :=
  daysBeforeMonthTable m + (if 2 < m ∧ isLeap y then 1 else 0)

/-- `datetime._days_before_year(year)`: days before January 1st of `year`. -/
def daysBeforeYear (y : Int) : Int :=
  let yy := y - 1
  yy * 365 + yy / 4 - yy / 100 + yy / 400

/-- `datetime._ymd2ord(year, month, day)`: proleptic Gregorian ordinal. -/
def ymd2ord (y m d : Int) : Int :=
  daysBeforeYear y + daysBeforeMonth y m + d

/-- `datetime._MAXORDINAL = _ymd2ord(9999, 12, 31)`. -/
def MAXORDINAL : Int := 3652059

/-- `datetime._ord2ymd(n)`: inverse of `ymd2ord` (CPython's algorithm,
with `>> 5` written as division by 32). -/
def ord2ymd (n : Int) : Int × Int × Int :=
  let n0 := n - 1
  let n400 := n0 / 146097
  let r400 := n0 % 146097
  let n100 := r400 / 36524
  let r100 := r400 % 36524
  let n4 := r100 / 1461
  let r4 := r100 % 1461
  let n1 := r4 / 365
  let r1 := r4 % 365
  let year := n400 * 400 + 1 + n100 * 100 + n4 * 4 + n1
  if n1 = 4 ∨ n100 = 4 then (year - 1, 12, 31)
  else
    let leap := n1 = 3 ∧ (n4 ≠ 24 ∨ n100 = 3)
    let month := (r1 + 50) / 32
    let preceding := daysBeforeMonthTable month + (if 2 < month ∧ leap then 1 else 0)
    if r1 < preceding then
      let month1 := month - 1
      let preceding1 :=
        preceding - (daysInMonthTable month1 + (if month1 = 2 ∧ leap then 1 else 0))
      (year, month1, r1 - preceding1 + 1)
    else (year, month, r1 - preceding + 1)

/-- `datetime.date(year, month, day)`: the validated constructor; `none` models
`ValueError`. Returns the ordinal. -/
def dateMk (y m d : Int) : Option Int :=
  if 1 ≤ y ∧ y ≤ 9999 ∧ 1 ≤ m ∧ m ≤ 12 ∧ 1 ≤ d ∧ d ≤ daysInMonth y m then
    some (ymd2ord y m d)
  else none

/-- `date.__add__(timedelta(days=k))`: `none` models `OverflowError` when the
result falls outside `1 .. MAXORDINAL`. -/
def dateAdd (ord k : Int) : Option Int :=
  let o := ord + k
  if 0 < o ∧ o ≤ MAXORDINAL then some o else none

/-- `datetime._isoweek1monday(year)`: ordinal of the Monday starting ISO week 1. -/
def isoweek1monday (year : Int) : Int :=
  let firstday := ymd2ord year 1 1
  let firstweekday := (firstday + 6) % 7
  let week1monday := firstday - firstweekday
  if firstweekday > 3 then week1monday + 7 else week1monday

/-- `date.isocalendar()` for the date of ordinal `today` lying in calendar year
`year`; returns `(iso_year, iso_week, iso_weekday)`. -/
def isocalendar (year today : Int) : Int × Int × Int :=
  let week1monday := isoweek1monday year
  let week := (today - week1monday) / 7
  let day := (today - week1monday) % 7
  if week < 0 then
    let year1 := year - 1
    let w1m := isoweek1monday year1
    (year1, (today - w1m) / 7 + 1, (today - w1m) % 7 + 1)
  else if 52 ≤ week ∧ isoweek1monday (year + 1) ≤ today then
    (year + 1, 1, day + 1)
  else
    (year, week + 1, day + 1)

/-- `date.fromisocalendar(year, week, day)` returning the ordinal; `none`
models `ValueError` (bad year, bad week, bad day, or a resulting date outside
the representable range, which the final `date(...)` constructor rejects). -/
def fromisocalendar (year week day : Int) : Option Int :=
  if ¬(1 ≤ year ∧ year ≤ 9999) then none
  else if ¬(0 < week ∧ week < 53) ∧
      ¬(week = 53 ∧
        (ymd2ord year 1 1 % 7 = 4 ∨ (ymd2ord year 1 1 % 7 = 3 ∧ isLeap year))) then none
  else if ¬(0 < day ∧ day < 8) then none
  else
    let ord := isoweek1monday year + (week - 1) * 7 + (day - 1)
    if 1 ≤ ord ∧ ord ≤ MAXORDINAL then some ord else none

/-! ### `date.isoformat()` -/

/-- The character of a decimal digit `0 ≤ n ≤ 9`. -/
def digitChar (n : Int) : Char := Char.ofNat (48 + n.toNat)

/-- `f"{n:04d}"` for `0 ≤ n ≤ 9999`. -/
def pad4 (n : Int) : String :=
  String.mk [digitChar (n / 1000 % 10), digitChar (n / 100 % 10),
             digitChar (n / 10 % 10), digitChar (n % 10)]

/-- `f"{n:02d}"` for `0 ≤ n ≤ 99`. -/
def pad2 (n : Int) : String :=
  String.mk [digitChar (n / 10 % 10), digitChar (n % 10)]

/-- `date.isoformat()` (i.e. `f"{y:04d}-{m:02d}-{d:02d}"`) of the date with
ordinal `ord`. -/
def dateIsoformat (ord : Int) : String :=
  let t := ord2ymd ord
  pad4 t.1 ++ "-" ++ pad2 t.2.1 ++ "-" ++ pad2 t.2.2

/-- `date.weekday()`: 0 = Monday .. 6 = Sunday. -/
def dateWeekday (ord : Int) : Int := (ord + 6) % 7

/-! ### `src/app.py`: domain constants and helpers -/

/-- `LOCATIONS` (app.py line 89). -/
def LOCATIONS : List String := ["Homeoffice", "Office", "Customer"]

/-- `WEEKDAY_NAMES` (app.py line 90). -/
def WEEKDAY_NAMES : List String :=
  ["Montag", "Dienstag", "Mittwoch", "Donnerstag", "Freitag", "Samstag", "Sonntag"]

/-- `iso_last_week(year)` (app.py lines 92-93):
`date(year, 12, 28).isocalendar()[1]`; `none` models the `ValueError` raised by
`date()` for a year outside 1..9999. -/
def iso_last_week (year : Int) : Option Int := do
  let ord ← dateMk year 12 28
  pure (isocalendar year ord).2.1

/-- `get_week_dates(year, week)` (app.py lines 95-99): clamps `week` into
`[1, iso_last_week year]`, takes the Monday of that ISO week, and returns the
7 consecutive dates of the week together with the clamped week. `none` models
any exception (`ValueError` from `date`/`fromisocalendar`, `OverflowError`
from `monday + timedelta(days=i)`). -/
def get_week_dates (year week : Int) : Option (List Int × Int) := do
  let lw ← iso_last_week year
  let week := max 1 (min week lw)
  let monday ← fromisocalendar year week 1
  let days ← (List.range 7).mapM (fun i : Nat => dateAdd monday (i : Int))
  pure (days, week)

/-- A row of the `work_selections` table (app.py lines 55-63), without the
surrogate `id` column. -/
structure WorkSelection where
  user_id : Int
  date : Int
  year : Int
  week : Int
  location : String
deriving DecidableEq, Repr

/-- The `work_selections` table: rows in insertion order. -/
abbrev DB := List WorkSelection

/-- Python-dict lookup for a dict built by comprehension from an association
list: the last binding for a key wins; `dflt` when the key is absent
(`dict.get(key, dflt)`). -/
def dictGet : List (String × String) → String → String → String
  | [], _, dflt => dflt
  | (k', v) :: t, k, dflt => dictGet t k (if k' == k then v else dflt)

/-- `load_selections_for_user_week(user_id, days_list)` (app.py lines 101-108)
as the association list `{d.isoformat(): loc}` in row order (so `dictGet`
realises the dict semantics). -/
def load_selections_for_user_week (db : DB) (user_id : Int) (days_list : List Int) :
    List (String × String) :=
  (db.filter (fun r => r.user_id == user_id && days_list.contains r.date)).map
    (fun r => (dateIsoformat r.date, r.location))

/-- The row predicate of the upsert's
`select(...).where(user_id == ..., date == d)` (app.py line 119). -/
def matchKey (user_id d : Int) : WorkSelection → Bool :=
  fun r => r.user_id == user_id && r.date == d

/-- The body of the `if existing:` branch of `upsert_user_week` (app.py lines
121-124): mutate the first row matching `(user_id, d)` in place, leaving every
other row untouched. -/
def updateFirst (db : DB) (user_id d year week : Int) (sel : String) : DB :=
  match db with
  | [] => []
  | r :: rest =>
    if matchKey user_id d r then
      { r with location := sel, year := year, week := week } :: rest
    else r :: updateFirst rest user_id d year week sel

/-- One iteration of the loop of `upsert_user_week` (app.py lines 118-126)
after the location has been normalized: `s.scalar(select(...))` finds the first
matching row; update it in place if present, else append a fresh row. -/
def upsertRow (db : DB) (user_id d year week : Int) (sel : String) : DB :=
  if (db.find? (matchKey user_id d)).isSome then
    updateFirst db user_id d year week sel
  else
    db ++ [⟨user_id, d, year, week, sel⟩]

/-- Location normalization in `upsert_user_week` (app.py lines 114-117):
`sel = form_payload.get(f"loc_{d.isoformat()}", "")`, reset to `""` when not in
`LOCATIONS`. -/
def normalizeLoc (form_payload : List (String × String)) (d : Int) : String :=
  let sel := (form_payload.lookup ("loc_" ++ dateIsoformat d)).getD ""
  if LOCATIONS.contains sel then sel else ""

/-- `upsert_user_week(user_id, year, week, form_payload)` (app.py lines
110-127). Note the code stores the *raw* `year` but the *normalized* week.
`none` models an exception from `get_week_dates` (nothing is committed). -/
def upsert_user_week (db : DB) (user_id year week : Int)
    (form_payload : List (String × String)) : Option DB := do
  let (days, week_norm) ← get_week_dates year week
  pure (days.foldl
    (fun db d => upsertRow db user_id d year week_norm (normalizeLoc form_payload d)) db)

/-! ### `src/app.py`: form parsing and HTTP handlers -/

/-- Decimal digit test for `int(str)` parsing. -/
def isPyDigit (c : Char) : Bool := 48 ≤ c.toNat && c.toNat ≤ 57

/-- Value of a decimal digit character. -/
def digitVal (c : Char) : Int := (c.toNat : Int) - 48

/-- Digit-run part of CPython `int(str)` parsing: consumes the remaining
characters after the first digit; a single `_` is allowed between two digits. -/
def pyDigitsAux : List Char → Int → Option Int
  | [], acc => some acc
  | '_' :: c :: rest, acc =>
    if isPyDigit c then pyDigitsAux rest (acc * 10 + digitVal c) else none
  | ['_'], _ => none
  | c :: rest, acc =>
    if isPyDigit c then pyDigitsAux rest (acc * 10 + digitVal c) else none

/-- Unsigned digit run of CPython `int(str)`: must start with a digit. -/
def pyDigits : List Char → Option Int
  | [] => none
  | c :: rest => if isPyDigit c then pyDigitsAux rest (digitVal c) else none

/-- CPython `int(s)` for a `str` argument (base 10): strips surrounding
whitespace, accepts an optional sign and a digit run with optional single
underscores between digits; `none` models `ValueError`. -/
def pyInt (s : String) : Option Int :=
  let cs := ((s.data.dropWhile Char.isWhitespace).reverse.dropWhile
      Char.isWhitespace).reverse
  match cs with
  | '+' :: rest => pyDigits rest
  | '-' :: rest => (pyDigits rest).map (fun v => -v)
  | rest => pyDigits rest

/-- `int(request.form.get(k))`: `form.get` yields the first value for `k` or
`None`; `int(None)` raises `TypeError`, `int(<bad str>)` raises `ValueError`,
both mapped to `none`. -/
def parseFormInt (form : List (String × String)) (k : String) : Option Int :=
  (form.lookup k).bind pyInt

/-- Outcome of an HTTP handler: the German 400 message, an unhandled exception
(HTTP 500), or success carrying handler-specific data. -/
inductive HandlerResult (α : Type) where
  | badRequest (msg : String)
  | serverError
  | ok (val : α)
deriving DecidableEq, Repr

/-- `save()` (app.py lines 200-210): parse `year`/`week`, 400 on failure, else
upsert and redirect to `(year, week)`. Returns the response and the resulting
table. -/
def save (db : DB) (user_id : Int) (form : List (String × String)) :
    HandlerResult (Int × Int) × DB :=
  match parseFormInt form "year", parseFormInt form "week" with
  | some year, some week =>
    match upsert_user_week db user_id year week form with
    | some db1 => (.ok (year, week), db1)
    | none => (.serverError, db)
  | _, _ => (.badRequest "Ungültige Kalenderangabe.", db)

/-- A spreadsheet cell produced by the export. -/
inductive Cell where
  | str (s : String)
  | int (n : Int)
deriving DecidableEq, Repr

/-- The successful payload of `download()`: the single sheet name, its rows
(each row the insertion-ordered dict passed to `pd.DataFrame`), and the
attachment filename. -/
structure ExportFile where
  sheet : String
  rows : List (List (String × Cell))
  filename : String
deriving DecidableEq, Repr

/-- One row dict of the export loop (app.py lines 228-235); `idx` indexes the
inline German weekday list (always `< 7`, so the `getD` default is inert). -/
def downloadRow (name : String) (year week : Int)
    (selections : List (String × String)) (idx : Nat) (d : Int) :
    List (String × Cell) :=
  [("Name", .str name), ("Jahr", .int year), ("Kalenderwoche", .int week),
   ("Datum", .str (dateIsoformat d)),
   ("Wochentag", .str ((["Montag", "Dienstag", "Mittwoch", "Donnerstag",
      "Freitag", "Samstag", "Sonntag"] : List String).getD idx "")),
   ("Standort", .str (dictGet selections (dateIsoformat d) ""))]

/-- `download()` (app.py lines 212-256): parse `year`/`week` (400 on failure),
persist via `upsert_user_week`, recompute the week, reload the stored
selections and build the single-sheet export. -/
def download (db : DB) (user_id : Int) (name : String)
    (form : List (String × String)) : HandlerResult ExportFile × DB :=
  match parseFormInt form "year", parseFormInt form "week" with
  | some year, some week =>
    match upsert_user_week db user_id year week form with
    | none => (.serverError, db)
    | some db1 =>
      match get_week_dates year week with
      | none => (.serverError, db1)
      | some (days, week2) =>
        let selections := load_selections_for_user_week db1 user_id days
        let rows := days.enum.map (fun p => downloadRow name year week2 selections p.1 p.2)
        (.ok { sheet := "Arbeitsorte", rows := rows,
               filename := "Arbeitsorte_" ++ name ++ "_J" ++ toString year ++
                 "_KW" ++ pad2 week2 ++ ".xlsx" }, db1)
  | _, _ => (.badRequest "Ungültige Kalenderangabe.", db)

/-- Prev/next week navigation of `index()` (app.py lines 168-182), applied to
the year and *normalized* week of the rendered view; `none` models the
`ValueError` from `iso_last_week` on an out-of-range year. -/
def prev_next (year week : Int) : Option ((Int × Int) × (Int × Int)) := do
  let pv ←
    if week = 1 then do
      let prev_year := year - 1
      let prev_week ← iso_last_week prev_year
      pure (prev_year, prev_week)
    else
      pure (year, week - 1)
  let last_week_this_year ← iso_last_week year
  let nx :=
    if week = last_week_this_year then (year + 1, 1)
    else (year, week + 1)
  pure (pv, nx)

/-- The next-step alone (the second half of the navigation), for stating that
navigation is self-inverse. -/
def next_step (year week : Int) : Option (Int × Int) := do
  let lw ← iso_last_week year
  pure (if week = lw then (year + 1, 1) else (year, week + 1))

/-! ### Specification-side helper predicates -/

/-- Exactly the years whose ISO calendar has 53 weeks, phrased as in the
week-53 validity test of `date.fromisocalendar`: the year starts on a Thursday
(ordinal ≡ 4 mod 7), or is a leap year starting on a Wednesday (≡ 3). -/
def Has53 (y : Int) : Prop :=
  ymd2ord y 1 1 % 7 = 4 ∨ (ymd2ord y 1 1 % 7 = 3 ∧ isLeap y = true)

instance (y : Int) : Decidable (Has53 y) := by unfold Has53; infer_instance

/-- At most one `work_selections` row per `(user_id, date)` pair: the content
of the uniqueness constraint `uq_user_date` (app.py line 63). -/
def AtMostOne (db : DB) : Prop :=
  ∀ u d, (db.filter (matchKey u d)).length ≤ 1

/-- How a pre-existing row may evolve under an upsert for user `uid` over the
days `days`: its identity `(user_id, date)` is preserved, and it is completely
unchanged unless it belongs to `uid` on one of `days`. -/
def RowEvolves (uid : Int) (days : List Int) (r r' : WorkSelection) : Prop :=
  r'.user_id = r.user_id ∧ r'.date = r.date ∧
    (¬(r.user_id = uid ∧ r.date ∈ days) → r' = r)

/-- Frame property of an upsert: the new table is the old rows, each evolved
per `RowEvolves` (in particular rows of other users or other dates are
untouched and none is deleted), plus freshly inserted rows that all belong to
`uid` on one of `days`. -/
def Frame (uid : Int) (days : List Int) (db db' : DB) : Prop :=
  ∃ base ext, db' = base ++ ext ∧ List.Forall₂ (RowEvolves uid days) db base ∧
    ∀ r ∈ ext, r.user_id = uid ∧ r.date ∈ days

/-- One requested `upsert_user_week` call: `(user_id, year, week, form)`. -/
abbrev UpsertCall := Int × Int × Int × List (String × String)

/-- Run a sequence of `upsert_user_week` calls against the table; a call that
raises leaves the table unchanged (the session is never committed). -/
def runCalls (db : DB) (calls : List UpsertCall) : DB :=
  calls.foldl (fun db c => (upsert_user_week db c.1 c.2.1 c.2.2.1 c.2.2.2).getD db) db

/-- The leap-day contribution of a year, as an integer. -/
def leapBit (y : Int) : Int := if isLeap y then 1 else 0


end SpecApp


namespace SpecApp

theorem isLeap_iff (y : Int) :
    isLeap y = true ↔ (y % 4 = 0 ∧ (y % 100 ≠ 0 ∨ y % 400 = 0)) := by
  simp [isLeap, Bool.and_eq_true, Bool.or_eq_true, bne_iff_ne, beq_iff_eq]

theorem jan1_eq (y : Int) : ymd2ord y 1 1 = daysBeforeYear y + 1 := by
  norm_num [ymd2ord, daysBeforeMonth, daysBeforeMonthTable]

theorem jan1_succ (y : Int) :
    ymd2ord (y + 1) 1 1 = ymd2ord y 1 1 + (if isLeap y then 366 else 365) := by
  rw [jan1_eq, jan1_eq]
  simp only [daysBeforeYear]
  split_ifs with h
  · rw [isLeap_iff] at h
    omega
  · rw [isLeap_iff] at h
    omega

theorem dec28_eq (y : Int) :
    ymd2ord y 12 28 = ymd2ord y 1 1 + 361 + (if isLeap y then 1 else 0) := by
  rw [jan1_eq]
  norm_num [ymd2ord, daysBeforeMonth, daysBeforeMonthTable]
  split_ifs <;> omega

theorem isoweek1monday_mod (y : Int) : isoweek1monday y % 7 = 1 := by
  simp only [isoweek1monday]
  generalize ymd2ord y 1 1 = j
  split_ifs <;> omega

theorem isocalendar_dec28 (y : Int) :
    (isocalendar y (ymd2ord y 12 28)).2.1 = if Has53 y then 53 else 52 := by
  have hdec := dec28_eq y
  have hsucc := jan1_succ y
  by_cases hh : Has53 y
  · rw [if_pos hh]
    unfold Has53 at hh
    simp only [isocalendar, isoweek1monday, hdec, hsucc]
    cases hL : isLeap y <;> simp only [hL] at hh ⊢ <;>
      simp only [Bool.false_eq_true, if_true, if_false] <;>
      generalize ymd2ord y 1 1 = j at * <;>
      split_ifs <;> simp_all <;> omega
  · rw [if_neg hh]
    unfold Has53 at hh
    simp only [isocalendar, isoweek1monday, hdec, hsucc]
    cases hL : isLeap y <;> simp only [hL] at hh ⊢ <;>
      simp only [Bool.false_eq_true, if_true, if_false] <;>
      generalize ymd2ord y 1 1 = j at * <;>
      split_ifs <;> simp_all <;> omega

theorem iso_last_week_eq (y : Int) (h1 : 1 ≤ y) (h2 : y ≤ 9999) :
    iso_last_week y = some (if Has53 y then 53 else 52) := by
  have hdm : daysInMonth y 12 = 31 := by
    norm_num [daysInMonth, daysInMonthTable]
  have hd : dateMk y 12 28 = some (ymd2ord y 12 28) := by
    unfold dateMk
    rw [hdm, if_pos (by omega)]
  simp [iso_last_week, hd, isocalendar_dec28]

theorem isoweek1monday_bounds (y : Int) (h1 : 1 ≤ y) (h2 : y ≤ 9998) :
    1 ≤ isoweek1monday y ∧ isoweek1monday y + 370 ≤ MAXORDINAL := by
  simp only [isoweek1monday, jan1_eq, daysBeforeYear, MAXORDINAL]
  split_ifs <;> omega

theorem dateAdd_some (m k : Int) (hl : 0 < m + k) (hr : m + k ≤ MAXORDINAL) :
    dateAdd m k = some (m + k) := by
  unfold dateAdd
  rw [if_pos ⟨hl, hr⟩]

theorem mapM_dateAdd (m : Int) (h1 : 1 ≤ m) (h2 : m + 6 ≤ MAXORDINAL) :
    (List.range 7).mapM (fun i : Nat => dateAdd m (i : Int)) =
      some [m, m + 1, m + 2, m + 3, m + 4, m + 5, m + 6] := by
  simp only [show List.range 7 = [0, 1, 2, 3, 4, 5, 6] from rfl,
    List.mapM_cons, List.mapM_nil]
  push_cast
  rw [dateAdd_some m 0 (by omega) (by omega), dateAdd_some m 1 (by omega) (by omega),
    dateAdd_some m 2 (by omega) (by omega), dateAdd_some m 3 (by omega) (by omega),
    dateAdd_some m 4 (by omega) (by omega), dateAdd_some m 5 (by omega) (by omega),
    dateAdd_some m 6 (by omega) (by omega)]
  norm_num

theorem leapBit_bounds (y : Int) : 0 ≤ leapBit y ∧ leapBit y ≤ 1 := by
  unfold leapBit; split_ifs <;> norm_num

theorem leapBit_iff (y : Int) :
    leapBit y = 1 ↔ (y % 4 = 0 ∧ (y % 100 ≠ 0 ∨ y % 400 = 0)) := by
  unfold leapBit
  split_ifs with h
  · simp only [isLeap, Bool.and_eq_true, Bool.or_eq_true, beq_iff_eq, bne_iff_ne] at h
    exact iff_of_true rfl h
  · simp only [isLeap, Bool.and_eq_true, Bool.or_eq_true, beq_iff_eq, bne_iff_ne] at h
    exact iff_of_false (by norm_num) h

theorem ymd2ord_eq (y m d : Int) :
    ymd2ord y m d =
      (y - 1) * 365 + (y - 1) / 4 - (y - 1) / 100 + (y - 1) / 400 +
        daysBeforeMonthTable m + (if 2 < m then leapBit y else 0) + d := by
  simp only [ymd2ord, daysBeforeYear, daysBeforeMonth, leapBit]
  split_ifs <;> simp_all <;> omega

set_option maxHeartbeats 2000000 in
theorem ord2ymd_spec (n : Int) (h1 : 1 ≤ n) (h2 : n ≤ 3652059) :
    ∃ y m d, ord2ymd n = (y, m, d) ∧ ymd2ord y m d = n ∧
      1 ≤ y ∧ y ≤ 9999 ∧ 1 ≤ m ∧ m ≤ 12 ∧ 1 ≤ d ∧ d ≤ 31 := by
  simp only [ord2ymd]
  generalize hA : (n - 1) / 146097 = a
  generalize hRA : (n - 1) % 146097 = ra
  generalize hB : ra / 36524 = b
  generalize hRB : ra % 36524 = rb
  generalize hC : rb / 1461 = c
  generalize hRC : rb % 1461 = rc
  generalize hE : rc / 365 = e
  generalize hR : rc % 365 = r
  generalize hMO : (r + 50) / 32 = mo
  generalize hY : a * 400 + 1 + b * 100 + c * 4 + e = Y
  by_cases hBR1 : (e = 4 ∨ b = 4)
  · rw [if_pos hBR1]
    have hLb := leapBit_bounds (Y - 1)
    have hLi := leapBit_iff (Y - 1)
    rcases hBR1 with he | hb
    · have h0 : rc = 1460 ∧ r = 0 ∧ b ≤ 3 ∧ c ≤ 23 := by omega
      have hd4 : (Y - 1 - 1) / 4 = 100 * a + 25 * b + c := by omega
      have hd100 : (Y - 1 - 1) / 100 = 4 * a + b := by omega
      have hd400 : (Y - 1 - 1) / 400 = a := by omega
      have hLB : leapBit (Y - 1) = 1 := by
        apply hLi.mpr
        constructor
        · omega
        · left; omega
      refine ⟨_, _, _, rfl, ?_⟩
      rw [ymd2ord_eq]
      norm_num [daysBeforeMonthTable]
      omega
    · have h0 : ra = 146096 ∧ rb = 0 ∧ c = 0 ∧ rc = 0 ∧ e = 0 ∧ r = 0 := by omega
      have hd4 : (Y - 1 - 1) / 4 = 100 * (a + 1) - 1 := by omega
      have hd100 : (Y - 1 - 1) / 100 = 4 * (a + 1) - 1 := by omega
      have hd400 : (Y - 1 - 1) / 400 = a := by omega
      have hLB : leapBit (Y - 1) = 1 := by
        apply hLi.mpr
        constructor
        · omega
        · right; omega
      refine ⟨_, _, _, rfl, ?_⟩
      rw [ymd2ord_eq]
      norm_num [daysBeforeMonthTable]
      omega
  · rw [if_neg hBR1]
    have heb : e ≤ 3 ∧ b ≤ 3 := by omega
    have hd4 : (Y - 1) / 4 = 100 * a + 25 * b + c := by omega
    have hd100 : (Y - 1) / 100 = 4 * a + b := by omega
    have hd400 : (Y - 1) / 400 = a := by omega
    have hLb := leapBit_bounds Y
    have hLi := leapBit_iff Y
    have hmo1 : 1 ≤ mo := by omega
    have hmo2 : mo ≤ 12 := by omega
    by_cases hlp : (e = 3 ∧ (c ≠ 24 ∨ b = 3))
    · have hLB : leapBit Y = 1 := by
        apply hLi.mpr
        obtain ⟨he, hcb⟩ := hlp
        refine ⟨by omega, ?_⟩
        by_cases hc : c = 24
        · right
          rcases hcb with h | h
          · exact absurd hc h
          · omega
        · left; omega
      clear hLi
      interval_cases mo <;>
      · norm_num [daysBeforeMonthTable, daysInMonthTable, hlp]
        split_ifs <;>
        · refine ⟨_, _, _, rfl, ?_⟩
          rw [ymd2ord_eq]
          norm_num [daysBeforeMonthTable]
          omega
    · have hLB : leapBit Y = 0 := by
        have hne : ¬(Y % 4 = 0 ∧ (Y % 100 ≠ 0 ∨ Y % 400 = 0)) := by
          intro hx
          obtain ⟨hx4, hxr⟩ := hx
          apply hlp
          refine ⟨by omega, ?_⟩
          rcases hxr with h | h
          · left; omega
          · right; omega
        omega
      clear hLi
      interval_cases mo <;>
      · norm_num [daysBeforeMonthTable, daysInMonthTable, hlp]
        split_ifs <;>
        · refine ⟨_, _, _, rfl, ?_⟩
          rw [ymd2ord_eq]
          norm_num [daysBeforeMonthTable]
          omega

theorem get_week_dates_eq (y W : Int) (h1 : 1 ≤ y) (h2 : y ≤ 9998) :
    ∃ lw m, iso_last_week y = some lw ∧ (lw = 52 ∨ lw = 53) ∧
      m = isoweek1monday y + (max 1 (min W lw) - 1) * 7 ∧
      get_week_dates y W =
        some ([m, m + 1, m + 2, m + 3, m + 4, m + 5, m + 6], max 1 (min W lw)) ∧
      1 ≤ m ∧ m + 6 ≤ MAXORDINAL := by
  have hlw := iso_last_week_eq y h1 (by omega)
  have hb := isoweek1monday_bounds y h1 h2
  set lw : Int := if Has53 y then 53 else 52 with hlwdef
  have hlw52 : lw = 52 ∨ lw = 53 := by
    rw [hlwdef]; split_ifs <;> simp
  set w : Int := max 1 (min W lw) with hwdef
  have hw1 : 1 ≤ w := le_max_left _ _
  have hwlw : w ≤ lw := by
    rw [hwdef]
    rcases hlw52 with h | h <;> rw [h] <;> omega
  refine ⟨lw, isoweek1monday y + (w - 1) * 7, hlw, hlw52, rfl, ?_, by omega, by omega⟩
  have hiso : fromisocalendar y w 1 = some (isoweek1monday y + (w - 1) * 7) := by
    unfold fromisocalendar
    rw [if_neg (by omega)]
    rw [if_neg ?hcond]
    case hcond =>
      intro hc
      rcases hc with ⟨hc1, hc2⟩
      by_cases hw53 : w = 53
      · refine hc2 ⟨hw53, ?_⟩
        have : Has53 y := by
          by_contra hn
          rw [hlwdef] at hwlw
          rw [if_neg hn] at hwlw
          omega
        exact this
      · exact hc1 ⟨by omega, by omega⟩
    rw [if_neg (by norm_num)]
    rw [if_pos (by constructor <;> omega)]
    norm_num
  have hmap := mapM_dateAdd (isoweek1monday y + (w - 1) * 7) (by omega) (by omega)
  simp only [get_week_dates, hlw, Option.bind_eq_bind, Option.some_bind]
  rw [← hwdef, hiso]
  simp only [Option.some_bind, hmap]
  rfl

theorem digitChar_inj (a b : Int) (ha0 : 0 ≤ a) (ha : a < 10) (hb0 : 0 ≤ b)
    (hb : b < 10) (h : digitChar a = digitChar b) : a = b := by
  interval_cases a <;> interval_cases b <;> revert h <;> decide

theorem isoformat_components_inj (y1 m1 d1 y2 m2 d2 : Int)
    (hy1 : 0 ≤ y1) (hy1b : y1 ≤ 9999) (hm1 : 0 ≤ m1) (hm1b : m1 ≤ 99)
    (hd1 : 0 ≤ d1) (hd1b : d1 ≤ 99)
    (hy2 : 0 ≤ y2) (hy2b : y2 ≤ 9999) (hm2 : 0 ≤ m2) (hm2b : m2 ≤ 99)
    (hd2 : 0 ≤ d2) (hd2b : d2 ≤ 99)
    (h : pad4 y1 ++ "-" ++ pad2 m1 ++ "-" ++ pad2 d1 =
         pad4 y2 ++ "-" ++ pad2 m2 ++ "-" ++ pad2 d2) :
    y1 = y2 ∧ m1 = m2 ∧ d1 = d2 := by
  have hdata := congrArg String.data h
  simp only [String.data_append, pad4, pad2] at hdata
  simp only [show ("-" : String).data = ['-'] from rfl, List.cons_append,
    List.nil_append, List.cons.injEq, eq_self_iff_true, true_and, and_true] at hdata
  obtain ⟨e1, e2, e3, e4, e5, e6, e9, e10⟩ := hdata
  have g1 := digitChar_inj _ _ (by omega) (by omega) (by omega) (by omega) e1
  have g2 := digitChar_inj _ _ (by omega) (by omega) (by omega) (by omega) e2
  have g3 := digitChar_inj _ _ (by omega) (by omega) (by omega) (by omega) e3
  have g4 := digitChar_inj _ _ (by omega) (by omega) (by omega) (by omega) e4
  have g5 := digitChar_inj _ _ (by omega) (by omega) (by omega) (by omega) e5
  have g6 := digitChar_inj _ _ (by omega) (by omega) (by omega) (by omega) e6
  have g7 := digitChar_inj _ _ (by omega) (by omega) (by omega) (by omega) e9
  have g8 := digitChar_inj _ _ (by omega) (by omega) (by omega) (by omega) e10
  refine ⟨by omega, by omega, by omega⟩

theorem dateIsoformat_inj (a b : Int) (ha1 : 1 ≤ a) (ha2 : a ≤ MAXORDINAL)
    (hb1 : 1 ≤ b) (hb2 : b ≤ MAXORDINAL)
    (h : dateIsoformat a = dateIsoformat b) : a = b := by
  obtain ⟨ya, ma, da, hea, hra, hba⟩ := ord2ymd_spec a ha1 ha2
  obtain ⟨yb, mb, db, heb, hrb, hbb⟩ := ord2ymd_spec b hb1 hb2
  unfold dateIsoformat at h
  rw [hea, heb] at h
  obtain ⟨hy, hm, hd⟩ := isoformat_components_inj ya ma da yb mb db
    (by omega) (by omega) (by omega) (by omega) (by omega) (by omega)
    (by omega) (by omega) (by omega) (by omega) (by omega) (by omega) h
  rw [← hra, ← hrb, hy, hm, hd]

theorem matchKey_iff (uid d : Int) (r : WorkSelection) :
    matchKey uid d r = true ↔ r.user_id = uid ∧ r.date = d := by
  simp [matchKey]

theorem updateFirst_filter_length (db : DB) (uid d y w : Int) (s : String)
    (u d' : Int) :
    ((updateFirst db uid d y w s).filter (matchKey u d')).length =
      (db.filter (matchKey u d')).length := by
  induction db with
  | nil => rfl
  | cons r rest ih =>
    unfold updateFirst
    by_cases hm : matchKey uid d r = true
    · rw [if_pos hm]
      have hk : matchKey u d' { r with location := s, year := y, week := w } =
          matchKey u d' r := by simp [matchKey]
      cases hv : matchKey u d' r with
      | true => rw [List.filter_cons_of_pos (by rw [hk]; exact hv),
          List.filter_cons_of_pos hv]; simp
      | false => rw [List.filter_cons_of_neg (by rw [hk]; simp [hv]),
          List.filter_cons_of_neg (by simp [hv])]
    · rw [if_neg hm]
      cases hv : matchKey u d' r with
      | true => rw [List.filter_cons_of_pos hv, List.filter_cons_of_pos hv]
                simp [ih]
      | false => rw [List.filter_cons_of_neg (by simp [hv]),
          List.filter_cons_of_neg (by simp [hv])]
                 exact ih

theorem upsertRow_AtMostOne (db : DB) (uid d y w : Int) (s : String)
    (h : AtMostOne db) : AtMostOne (upsertRow db uid d y w s) := by
  intro u d'
  unfold upsertRow
  by_cases hf : (db.find? (matchKey uid d)).isSome
  · rw [if_pos hf, updateFirst_filter_length]
    exact h u d'
  · rw [if_neg hf]
    rw [List.filter_append]
    rw [Option.not_isSome_iff_eq_none, List.find?_eq_none] at hf
    cases hv : matchKey u d' ⟨uid, d, y, w, s⟩ with
    | true =>
      obtain ⟨h1, h2⟩ := (matchKey_iff _ _ _).1 hv
      simp only [] at h1 h2
      have hnil : db.filter (matchKey u d') = [] := by
        rw [List.filter_eq_nil_iff]
        intro a ha hc
        obtain ⟨g1, g2⟩ := (matchKey_iff _ _ _).1 hc
        refine hf a ha ((matchKey_iff _ _ _).2 ⟨?_, ?_⟩) <;> omega
      rw [hnil]
      simp [hv]
    | false =>
      have : (List.filter (matchKey u d')
          [(⟨uid, d, y, w, s⟩ : WorkSelection)]) = [] := by simp [hv]
      rw [this]
      simp only [List.append_nil]
      exact h u d'

theorem updateFirst_find_self (db : DB) (uid d y w : Int) (s : String)
    (h : (db.find? (matchKey uid d)).isSome) :
    (updateFirst db uid d y w s).find? (matchKey uid d) = some ⟨uid, d, y, w, s⟩ := by
  induction db with
  | nil => simp at h
  | cons r rest ih =>
    by_cases hm : matchKey uid d r = true
    · obtain ⟨h1, h2⟩ := (matchKey_iff uid d r).1 hm
      obtain ⟨ru, rd, ry, rw, rl⟩ := r
      unfold updateFirst
      rw [if_pos hm]
      have hm2 : matchKey uid d ⟨ru, rd, y, w, s⟩ = true := by
        simp_all [matchKey]
      simp only [List.find?_cons, hm2]
      simp_all
    · unfold updateFirst
      rw [if_neg hm]
      rw [List.find?_cons_of_neg _ hm] at h
      rw [List.find?_cons_of_neg _ hm]
      exact ih h

theorem updateFirst_find_other (db : DB) (uid d y w : Int) (s : String)
    (uid' d' : Int) (hne : ¬(uid' = uid ∧ d' = d)) :
    (updateFirst db uid d y w s).find? (matchKey uid' d') =
      db.find? (matchKey uid' d') := by
  induction db with
  | nil => rfl
  | cons r rest ih =>
    by_cases hm : matchKey uid d r = true
    · obtain ⟨h1, h2⟩ := (matchKey_iff uid d r).1 hm
      unfold updateFirst
      rw [if_pos hm]
      have hk : matchKey uid' d' { r with location := s, year := y, week := w } =
          matchKey uid' d' r := by
        simp [matchKey]
      by_cases hm' : matchKey uid' d' r = true
      · obtain ⟨h1', h2'⟩ := (matchKey_iff uid' d' r).1 hm'
        exact absurd ⟨h1' ▸ h1.symm ▸ rfl, by omega⟩ hne
      · rw [List.find?_cons_of_neg _ (by rw [hk]; exact hm'),
          List.find?_cons_of_neg _ hm']
    · unfold updateFirst
      rw [if_neg hm]
      by_cases hm' : matchKey uid' d' r = true
      · rw [List.find?_cons_of_pos _ hm', List.find?_cons_of_pos _ hm']
      · rw [List.find?_cons_of_neg _ hm', List.find?_cons_of_neg _ hm']
        exact ih

theorem upsertRow_find_self (db : DB) (uid d y w : Int) (s : String) :
    (upsertRow db uid d y w s).find? (matchKey uid d) = some ⟨uid, d, y, w, s⟩ := by
  unfold upsertRow
  by_cases h : (db.find? (matchKey uid d)).isSome
  · rw [if_pos h]
    exact updateFirst_find_self db uid d y w s h
  · rw [if_neg h]
    rw [List.find?_append]
    rw [Option.not_isSome_iff_eq_none] at h
    rw [h]
    simp [matchKey]

theorem upsertRow_find_other (db : DB) (uid d y w : Int) (s : String)
    (uid' d' : Int) (hne : ¬(uid' = uid ∧ d' = d)) :
    (upsertRow db uid d y w s).find? (matchKey uid' d') =
      db.find? (matchKey uid' d') := by
  unfold upsertRow
  by_cases h : (db.find? (matchKey uid d)).isSome
  · rw [if_pos h]
    exact updateFirst_find_other db uid d y w s uid' d' hne
  · rw [if_neg h]
    have hmk : matchKey uid' d' ⟨uid, d, y, w, s⟩ = false := by
      by_contra hc
      rw [Bool.not_eq_false] at hc
      obtain ⟨h1, h2⟩ := (matchKey_iff _ _ _).1 hc
      exact hne ⟨h1.symm, h2.symm⟩
    rw [List.find?_append]
    simp [hmk]

theorem rowEvolves_refl (uid : Int) (days : List Int) (r : WorkSelection) :
    RowEvolves uid days r r := ⟨rfl, rfl, fun _ => rfl⟩

theorem frame_refl (uid : Int) (days : List Int) (db : DB) : Frame uid days db db :=
  ⟨db, [], by simp, List.forall₂_same.2 (fun r _ => rowEvolves_refl uid days r), by simp⟩

theorem rowEvolves_trans (uid : Int) (days : List Int) (a b c : WorkSelection)
    (h1 : RowEvolves uid days a b) (h2 : RowEvolves uid days b c) :
    RowEvolves uid days a c := by
  obtain ⟨u1, d1, e1⟩ := h1
  obtain ⟨u2, d2, e2⟩ := h2
  refine ⟨u2.trans u1, d2.trans d1, fun hn => ?_⟩
  have hb := e1 hn
  rw [hb] at e2
  exact e2 hn

theorem forall₂_rowEvolves_trans (uid : Int) (days : List Int) :
    ∀ {l1 l2 l3 : DB}, List.Forall₂ (RowEvolves uid days) l1 l2 →
      List.Forall₂ (RowEvolves uid days) l2 l3 →
      List.Forall₂ (RowEvolves uid days) l1 l3 := by
  intro l1 l2 l3 h1
  induction h1 generalizing l3 with
  | nil =>
    intro h2
    cases h2
    exact .nil
  | cons ha hl ih =>
    intro h2
    cases h2 with
    | cons hb hl2 => exact .cons (rowEvolves_trans _ _ _ _ _ ha hb) (ih hl2)

theorem forall₂_rowEvolves_mem (uid : Int) (days : List Int) :
    ∀ {l1 l2 : DB}, List.Forall₂ (RowEvolves uid days) l1 l2 →
      (∀ r ∈ l1, r.user_id = uid ∧ r.date ∈ days) →
      ∀ r ∈ l2, r.user_id = uid ∧ r.date ∈ days := by
  intro l1 l2 h
  induction h with
  | nil => simp
  | cons ha hl ih =>
    intro hall r hr
    rcases List.mem_cons.1 hr with rfl | hr
    · obtain ⟨hu, hd, _⟩ := ha
      have hh := hall _ (List.mem_cons_self _ _)
      exact ⟨hu.trans hh.1, hd ▸ hh.2⟩
    · exact ih (fun x hx => hall x (List.mem_cons_of_mem _ hx)) r hr

theorem forall₂_append_split {α β : Type} {R : α → β → Prop} :
    ∀ {l1 l2 : List α} {l : List β}, List.Forall₂ R (l1 ++ l2) l →
      ∃ la lb, l = la ++ lb ∧ List.Forall₂ R l1 la ∧ List.Forall₂ R l2 lb := by
  intro l1
  induction l1 with
  | nil =>
    intro l2 l h
    exact ⟨[], l, rfl, .nil, h⟩
  | cons a t ih =>
    intro l2 l h
    cases h with
    | cons hab hrest =>
      obtain ⟨la, lb, rfl, hx1, hx2⟩ := ih hrest
      exact ⟨_ :: la, lb, rfl, .cons hab hx1, hx2⟩

theorem frame_trans (uid : Int) (days : List Int) (d1 d2 d3 : DB)
    (h1 : Frame uid days d1 d2) (h2 : Frame uid days d2 d3) :
    Frame uid days d1 d3 := by
  obtain ⟨b1, e1, rfl, hf1, he1⟩ := h1
  obtain ⟨b2, e2, rfl, hf2, he2⟩ := h2
  obtain ⟨b2a, b2b, rfl, hfa, hfb⟩ := forall₂_append_split hf2
  refine ⟨b2a, b2b ++ e2, by simp, forall₂_rowEvolves_trans _ _ hf1 hfa, ?_⟩
  intro r hr
  rcases List.mem_append.1 hr with hr | hr
  · exact forall₂_rowEvolves_mem _ _ hfb he1 r hr
  · exact he2 r hr

theorem upsertRow_frame (db : DB) (uid d y w : Int) (s : String) (days : List Int)
    (hd : d ∈ days) : Frame uid days db (upsertRow db uid d y w s) := by
  unfold upsertRow
  by_cases hf : (db.find? (matchKey uid d)).isSome
  · rw [if_pos hf]
    refine ⟨updateFirst db uid d y w s, [], by simp, ?_, by simp⟩
    clear hf
    induction db with
    | nil => exact .nil
    | cons r rest ih =>
      unfold updateFirst
      by_cases hm : matchKey uid d r = true
      · rw [if_pos hm]
        obtain ⟨h1, h2⟩ := (matchKey_iff _ _ _).1 hm
        refine .cons ⟨rfl, rfl, fun hn => absurd ⟨h1, by rw [h2]; exact hd⟩ hn⟩ ?_
        exact List.forall₂_same.2 fun x _ => rowEvolves_refl uid days x
      · rw [if_neg hm]
        exact .cons (rowEvolves_refl uid days r) ih
  · rw [if_neg hf]
    exact ⟨db, [⟨uid, d, y, w, s⟩], rfl,
      List.forall₂_same.2 fun x _ => rowEvolves_refl uid days x, by simp [hd]⟩

theorem foldl_upsert_frame (days' days : List Int) (uid y w : Int)
    (f : Int → String) (hsub : ∀ x ∈ days', x ∈ days) :
    ∀ db : DB, Frame uid days db
      (days'.foldl (fun db d => upsertRow db uid d y w (f d)) db) := by
  induction days' with
  | nil =>
    intro db
    exact frame_refl uid days db
  | cons a t ih =>
    intro db
    rw [List.foldl_cons]
    exact frame_trans _ _ _ _ _
      (upsertRow_frame db uid a y w (f a) days (hsub a (List.mem_cons_self _ _)))
      (ih (fun x hx => hsub x (List.mem_cons_of_mem _ hx)) _)

theorem foldl_upsert_find_other (days' : List Int) (uid y w : Int)
    (f : Int → String) (uid' d' : Int) :
    ∀ db : DB, ¬(uid' = uid ∧ d' ∈ days') →
    ((days'.foldl (fun db d => upsertRow db uid d y w (f d)) db).find?
        (matchKey uid' d')) = db.find? (matchKey uid' d') := by
  induction days' with
  | nil =>
    intro db h
    rfl
  | cons a t ih =>
    intro db h
    rw [List.foldl_cons]
    rw [ih _ (fun hc => h ⟨hc.1, List.mem_cons_of_mem _ hc.2⟩)]
    exact upsertRow_find_other db uid a y w (f a) uid' d'
      (fun hc => h ⟨hc.1, by rw [hc.2]; exact List.mem_cons_self _ _⟩)

theorem foldl_upsert_find_mem (days' : List Int) (uid y w : Int)
    (f : Int → String) (d : Int) :
    ∀ db : DB, d ∈ days' → days'.Nodup →
    ((days'.foldl (fun db d => upsertRow db uid d y w (f d)) db).find?
        (matchKey uid d)) = some ⟨uid, d, y, w, f d⟩ := by
  induction days' with
  | nil =>
    intro db hd hnd
    cases hd
  | cons a t ih =>
    intro db hd hnd
    rw [List.foldl_cons]
    rcases List.mem_cons.1 hd with rfl | hmem
    · have hni : d ∉ t := (List.nodup_cons.1 hnd).1
      rw [foldl_upsert_find_other t uid y w f uid d _ (fun hc => hni hc.2)]
      exact upsertRow_find_self db uid d y w (f d)
    · exact ih _ hmem (List.nodup_cons.1 hnd).2

theorem foldl_upsert_AtMostOne (days' : List Int) (uid y w : Int)
    (f : Int → String) :
    ∀ db : DB, AtMostOne db →
    AtMostOne (days'.foldl (fun db d => upsertRow db uid d y w (f d)) db) := by
  induction days' with
  | nil =>
    intro db h
    exact h
  | cons a t ih =>
    intro db h
    rw [List.foldl_cons]
    exact ih _ (upsertRow_AtMostOne _ _ _ _ _ _ h)

theorem week_days_nodup (m : Int) :
    ([m, m + 1, m + 2, m + 3, m + 4, m + 5, m + 6] : List Int).Nodup := by
  simp

theorem dictGet_no_key (l : List (String × String)) (k dflt : String)
    (h : ∀ p ∈ l, (p.1 == k) = false) : dictGet l k dflt = dflt := by
  induction l generalizing dflt with
  | nil => rfl
  | cons p t ih =>
    obtain ⟨k', v⟩ := p
    unfold dictGet
    rw [h (k', v) (List.mem_cons_self _ _)]
    simp only [Bool.false_eq_true, if_false]
    exact ih dflt (fun q hq => h q (List.mem_cons_of_mem _ hq))

theorem load_no_key (db : DB) (uid : Int) (days : List Int) (d : Int)
    (hd : d ∈ days)
    (hinj : ∀ a b, a ∈ days → b ∈ days → dateIsoformat a = dateIsoformat b → a = b)
    (h : ∀ r ∈ db, matchKey uid d r = false) :
    ∀ p ∈ load_selections_for_user_week db uid days, (p.1 == dateIsoformat d) = false := by
  intro p hp
  unfold load_selections_for_user_week at hp
  rw [List.mem_map] at hp
  obtain ⟨r, hr, rfl⟩ := hp
  rw [List.mem_filter] at hr
  obtain ⟨hrdb, hq⟩ := hr
  rw [Bool.and_eq_true, beq_iff_eq] at hq
  obtain ⟨hu, hc⟩ := hq
  by_contra hb
  rw [Bool.not_eq_false, beq_iff_eq] at hb
  have hrd : r.date ∈ days := by simpa using hc
  have : r.date = d := hinj _ _ hrd hd hb
  have hm : matchKey uid d r = true := (matchKey_iff _ _ _).2 ⟨hu, this⟩
  rw [h r hrdb] at hm
  cases hm

theorem load_dictGet (db : DB) (uid : Int) (days : List Int) (d : Int)
    (hd : d ∈ days)
    (hinj : ∀ a b, a ∈ days → b ∈ days → dateIsoformat a = dateIsoformat b → a = b) :
    ∀ dflt, (db.filter (matchKey uid d)).length ≤ 1 →
    dictGet (load_selections_for_user_week db uid days) (dateIsoformat d) dflt =
      (((db.find? (matchKey uid d)).map (fun r => r.location)).getD dflt) := by
  induction db with
  | nil =>
    intro dflt hamo
    rfl
  | cons r t ih =>
    intro dflt hamo
    by_cases hq : (r.user_id == uid && days.contains r.date) = true
    · have hload : load_selections_for_user_week (r :: t) uid days =
          (dateIsoformat r.date, r.location) :: load_selections_for_user_week t uid days := by
        simp only [load_selections_for_user_week, List.filter_cons, hq, if_true,
          List.map_cons]
      rw [hload]
      rw [Bool.and_eq_true, beq_iff_eq] at hq
      obtain ⟨hu, hc⟩ := hq
      have hrd : r.date ∈ days := by simpa using hc
      by_cases heq : r.date = d
      · have hm : matchKey uid d r = true := (matchKey_iff _ _ _).2 ⟨hu, heq⟩
        rw [List.find?_cons_of_pos _ hm]
        rw [List.filter_cons_of_pos hm] at hamo
        have hnil : t.filter (matchKey uid d) = [] := by
          rw [← List.length_eq_zero]
          simp only [List.length_cons] at hamo
          omega
        have ht0 : ∀ r' ∈ t, matchKey uid d r' = false := by
          intro r' hr'
          by_contra hb
          rw [Bool.not_eq_false] at hb
          have hmem : r' ∈ t.filter (matchKey uid d) := List.mem_filter.2 ⟨hr', hb⟩
          rw [hnil] at hmem
          cases hmem
        unfold dictGet
        rw [show (dateIsoformat r.date == dateIsoformat d) = true by
          rw [beq_iff_eq, heq]]
        simp only [if_true]
        rw [dictGet_no_key _ _ _ (load_no_key t uid days d hd hinj ht0)]
        rfl

      · have hm : matchKey uid d r = false := by
          by_contra hb
          rw [Bool.not_eq_false] at hb
          exact heq ((matchKey_iff _ _ _).1 hb).2
        rw [List.find?_cons_of_neg _ (by rw [hm]; simp)]
        rw [List.filter_cons_of_neg (by rw [hm]; simp)] at hamo
        unfold dictGet
        have hkne : (dateIsoformat r.date == dateIsoformat d) = false := by
          by_contra hb
          rw [Bool.not_eq_false, beq_iff_eq] at hb
          exact heq (hinj _ _ hrd hd hb)
        rw [hkne]
        simp only [Bool.false_eq_true, if_false]
        exact ih dflt hamo
    · have hq2 : (r.user_id == uid && days.contains r.date) = false := by
        simpa using hq
      have hload : load_selections_for_user_week (r :: t) uid days =
          load_selections_for_user_week t uid days := by
        simp only [load_selections_for_user_week, List.filter_cons, hq2,
          Bool.false_eq_true, if_false]
      rw [hload]
      have hm : matchKey uid d r = false := by
        by_contra hb
        rw [Bool.not_eq_false] at hb
        obtain ⟨h1, h2⟩ := (matchKey_iff _ _ _).1 hb
        apply hq
        rw [Bool.and_eq_true, beq_iff_eq]
        refine ⟨h1, ?_⟩
        rw [h2]
        simpa using hd
      rw [List.find?_cons_of_neg _ (by rw [hm]; simp)]
      rw [List.filter_cons_of_neg (by rw [hm]; simp)] at hamo
      exact ih dflt hamo

theorem upsert_user_week_eq (db : DB) (uid y w : Int)
    (form : List (String × String)) (days : List Int) (wn : Int)
    (hgw : get_week_dates y w = some (days, wn)) :
    upsert_user_week db uid y w form =
      some (days.foldl
        (fun db d => upsertRow db uid d y wn (normalizeLoc form d)) db) := by
  unfold upsert_user_week
  rw [hgw]
  rfl

theorem upsert_user_week_AtMostOne (db : DB) (uid y w : Int)
    (form : List (String × String)) (db' : DB)
    (h : AtMostOne db) (hup : upsert_user_week db uid y w form = some db') :
    AtMostOne db' := by
  unfold upsert_user_week at hup
  cases hgw : get_week_dates y w with
  | none =>
    rw [hgw] at hup
    simp at hup
  | some p =>
    obtain ⟨days, wn⟩ := p
    rw [hgw] at hup
    simp only [Option.bind_eq_bind, Option.some_bind, Option.pure_def,
      Option.some.injEq] at hup
    rw [← hup]
    exact foldl_upsert_AtMostOne days uid y wn _ db h

theorem upsert_getD_AtMostOne (db : DB) (uid y w : Int)
    (form : List (String × String)) (h : AtMostOne db) :
    AtMostOne ((upsert_user_week db uid y w form).getD db) := by
  cases hup : upsert_user_week db uid y w form with
  | none => simpa using h
  | some db' => simpa using upsert_user_week_AtMostOne db uid y w form db' h hup

end SpecApp

namespace SpecApp

/-- **C1.** For every table satisfying the per-`(user, date)` uniqueness
invariant and every sequence of `upsert_user_week` calls, the resulting table
still contains at most one row per `(user_id, date)`: upserting the same
user+date again updates the existing row in place and never inserts a second
row for the pair. -/
theorem claim_C1_upsert_at_most_one_per_user_date (db : DB) (h : AtMostOne db)
    (calls : List UpsertCall) : AtMostOne (runCalls db calls) := by
  induction calls generalizing db with
  | nil => exact h
  | cons c t ih =>
    unfold runCalls
    rw [List.foldl_cons]
    exact ih _ (upsert_getD_AtMostOne db c.1 c.2.1 c.2.2.1 c.2.2.2 h)

theorem claim_C1_witness :
    AtMostOne [] ∧
      AtMostOne (runCalls []
        [(1, 2024, 1, [("loc_2024-01-01", "Office")]),
         (1, 2024, 1, [("loc_2024-01-01", "Homeoffice")])]) :=
  ⟨fun _ _ => by simp,
   claim_C1_upsert_at_most_one_per_user_date [] (fun _ _ => by simp)
     [(1, 2024, 1, [("loc_2024-01-01", "Office")]),
      (1, 2024, 1, [("loc_2024-01-01", "Homeoffice")])]⟩

/-- **C2 (counterexample).** At year 9999 — inside the representable date
range — and week 52, `get_week_dates` does not return a list of dates at all:
the week's later days fall beyond 9999-12-31 and `monday + timedelta(days=i)`
raises `OverflowError`. -/
theorem claim_C2_counterexample : get_week_dates 9999 52 = none := by decide

/-- **C2 (amended).** For every year `Y` with `1 ≤ Y ≤ 9998` and every integer
`W`, `get_week_dates Y W` returns exactly the 7 consecutive dates
`m, m+1, …, m+6` starting at the Monday `m` (ordinal ≡ 1 mod 7) of ISO week
`W' = max 1 (min W lw)` of year `Y`, where `lw` is `iso_last_week Y`; i.e. `W`
is clamped into `[1, lw]`.  (For `Y = 9999` the code instead raises once the
clamped week reaches 52.) -/
theorem claim_C2_get_week_dates_spec (Y W : Int) (h1 : 1 ≤ Y) (h2 : Y ≤ 9998) :
    ∃ lw m, iso_last_week Y = some lw ∧
      get_week_dates Y W =
        some ([m, m + 1, m + 2, m + 3, m + 4, m + 5, m + 6],
          max 1 (min W lw)) ∧
      m % 7 = 1 ∧
      m = isoweek1monday Y + (max 1 (min W lw) - 1) * 7 ∧
      1 ≤ max 1 (min W lw) ∧ max 1 (min W lw) ≤ lw := by
  obtain ⟨lw, m, hlw, hlw52, hm, hgw, hm1, hm6⟩ := get_week_dates_eq Y W h1 h2
  have hmod := isoweek1monday_mod Y
  refine ⟨lw, m, hlw, hgw, by omega, hm, le_max_left _ _, ?_⟩
  rcases hlw52 with h | h <;> rw [h] <;> omega

theorem claim_C2_witness :
    (1 : Int) ≤ 2024 ∧ (2024 : Int) ≤ 9998 ∧
      ∃ lw m, iso_last_week 2024 = some lw ∧
        get_week_dates 2024 60 =
          some ([m, m + 1, m + 2, m + 3, m + 4, m + 5, m + 6],
            max 1 (min 60 lw)) ∧
        m % 7 = 1 ∧
        m = isoweek1monday 2024 + (max 1 (min 60 lw) - 1) * 7 ∧
        1 ≤ max 1 (min 60 lw) ∧ max 1 (min 60 lw) ≤ lw :=
  ⟨by norm_num, by norm_num,
    claim_C2_get_week_dates_spec 2024 60 (by norm_num) (by norm_num)⟩

/-- **C3.** For every year in the representable range 1..9999, the ISO week
number of December 28 — `iso_last_week` — is 52 or 53. -/
theorem claim_C3_last_week_52_or_53 (y : Int) (h1 : 1 ≤ y) (h2 : y ≤ 9999) :
    iso_last_week y = some 52 ∨ iso_last_week y = some 53 := by
  rw [iso_last_week_eq y h1 h2]
  by_cases h : Has53 y
  · right
    rw [if_pos h]
  · left
    rw [if_neg h]

theorem claim_C3_witness :
    (1 : Int) ≤ 2024 ∧ (2024 : Int) ≤ 9999 ∧
      (iso_last_week 2024 = some 52 ∨ iso_last_week 2024 = some 53) :=
  ⟨by norm_num, by norm_num,
    claim_C3_last_week_52_or_53 2024 (by norm_num) (by norm_num)⟩

/-- **C6.** `get_week_dates 2024 1` returns the seven dates 2024-01-01 through
2024-01-07 with normalized week 1 (2024-01-01 being a Monday, weekday 0), and
`get_week_dates 2024 60` clamps the week to 52. -/
theorem claim_C6_examples :
    get_week_dates 2024 1 =
      some ([ymd2ord 2024 1 1, ymd2ord 2024 1 2, ymd2ord 2024 1 3,
        ymd2ord 2024 1 4, ymd2ord 2024 1 5, ymd2ord 2024 1 6,
        ymd2ord 2024 1 7], 1) ∧
    (get_week_dates 2024 1).map (fun p => p.1.map dateIsoformat) =
      some ["2024-01-01", "2024-01-02", "2024-01-03", "2024-01-04",
        "2024-01-05", "2024-01-06", "2024-01-07"] ∧
    dateWeekday (ymd2ord 2024 1 1) = 0 ∧
    (get_week_dates 2024 60).map (fun p => p.2) = some 52 := by
  refine ⟨by decide, by decide, by decide, by decide⟩

/-- **C10 (counterexample).** At year 1, week 1 (a normalized week in
`[1, iso_last_week 1]`), the prev/next navigation of the index handler does
not yield positions at all: computing the previous week calls
`iso_last_week 0`, which raises `ValueError`. -/
theorem claim_C10_counterexample :
    prev_next 1 1 = none ∧ iso_last_week 1 = some 52 := by decide

/-- **C10 (amended).** For every year `Y` with `2 ≤ Y ≤ 9998` and every
normalized week `W` in `[1, iso_last_week Y]`, the prev/next navigation
succeeds, both computed positions are valid (week within `[1, iso_last_week]`
of their year), and applying the next-step to the previous pair returns
`(Y, W)`. -/
theorem claim_C10_prev_next_valid_self_inverse (Y W lw : Int)
    (h1 : 2 ≤ Y) (h2 : Y ≤ 9998)
    (hlw : iso_last_week Y = some lw) (hW1 : 1 ≤ W) (hW2 : W ≤ lw) :
    ∃ pv nx lwp lwn, prev_next Y W = some (pv, nx) ∧
      iso_last_week pv.1 = some lwp ∧ 1 ≤ pv.2 ∧ pv.2 ≤ lwp ∧
      iso_last_week nx.1 = some lwn ∧ 1 ≤ nx.2 ∧ nx.2 ≤ lwn ∧
      next_step pv.1 pv.2 = some (Y, W) := by
  have hlw0 := hlw
  have hprev := iso_last_week_eq (Y - 1) (by omega) (by omega)
  have hnext := iso_last_week_eq (Y + 1) (by omega) (by omega)
  have hlwY := iso_last_week_eq Y (by omega) (by omega)
  rw [hlwY] at hlw
  rw [Option.some_inj] at hlw
  have hlwv : lw = 52 ∨ lw = 53 := by
    split_ifs at hlw <;> omega
  set lwp : Int := if Has53 (Y - 1) then 53 else 52 with hlwpdef
  have hlwpv : lwp = 52 ∨ lwp = 53 := by
    rw [hlwpdef]
    split_ifs <;> simp
  set lwn : Int := if Has53 (Y + 1) then 53 else 52 with hlwndef
  have hlwnv : lwn = 52 ∨ lwn = 53 := by
    rw [hlwndef]
    split_ifs <;> simp
  rw [hlw] at hlwY
  by_cases hw1 : W = 1
  · subst hw1
    have hpn : prev_next Y 1 = some ((Y - 1, lwp), (Y, 2)) := by
      unfold prev_next
      rw [if_pos rfl]
      dsimp only
      rw [hprev]
      simp only [Option.bind_eq_bind, Option.some_bind, Option.pure_def]
      rw [hlwY]
      simp only [Option.some_bind]
      rw [if_neg (by omega)]
      norm_num
    refine ⟨(Y - 1, lwp), (Y, 2), lwp, lw, hpn, hprev, by omega, le_refl _,
      hlwY, by norm_num, by omega, ?_⟩
    unfold next_step
    rw [hprev]
    simp only [Option.bind_eq_bind, Option.some_bind, Option.pure_def]
    rw [if_pos trivial]
    have hYY : Y - 1 + 1 = Y := by omega
    rw [hYY]
  · by_cases hwlw : W = lw
    · have hpn : prev_next Y W = some ((Y, W - 1), (Y + 1, 1)) := by
        unfold prev_next
        rw [if_neg hw1]
        simp only [Option.bind_eq_bind, Option.some_bind, Option.pure_def]
        rw [hlwY]
        simp only [Option.some_bind]
        rw [if_pos hwlw]
      refine ⟨(Y, W - 1), (Y + 1, 1), lw, lwn, hpn, hlwY, by omega, by omega,
        hnext, by norm_num, by omega, ?_⟩
      unfold next_step
      rw [hlwY]
      simp only [Option.bind_eq_bind, Option.some_bind, Option.pure_def]
      rw [if_neg (by omega)]
      have hWW : W - 1 + 1 = W := by omega
      rw [hWW]
    · have hpn : prev_next Y W = some ((Y, W - 1), (Y, W + 1)) := by
        unfold prev_next
        rw [if_neg hw1]
        simp only [Option.bind_eq_bind, Option.some_bind, Option.pure_def]
        rw [hlwY]
        simp only [Option.some_bind]
        rw [if_neg hwlw]
      refine ⟨(Y, W - 1), (Y, W + 1), lw, lw, hpn, hlwY, by omega, by omega,
        hlwY, by omega, by omega, ?_⟩
      unfold next_step
      rw [hlwY]
      simp only [Option.bind_eq_bind, Option.some_bind, Option.pure_def]
      rw [if_neg (by omega)]
      have hWW : W - 1 + 1 = W := by omega
      rw [hWW]
/-- **C4.** A POST to `/save` or `/download` whose `year` or `week` form field
is missing or fails integer parsing returns the fixed 400 message
"Ungültige Kalenderangabe." and leaves the table untouched (no upsert);
when both fields parse as integers, neither handler takes that error branch. -/
theorem claim_C4_invalid_year_week_400 (db : DB) (uid : Int) (name : String)
    (form : List (String × String)) :
    ((parseFormInt form "year" = none ∨ parseFormInt form "week" = none) →
      save db uid form = (.badRequest "Ungültige Kalenderangabe.", db) ∧
      download db uid name form = (.badRequest "Ungültige Kalenderangabe.", db)) ∧
    (∀ y w, parseFormInt form "year" = some y → parseFormInt form "week" = some w →
      (∀ msg, (save db uid form).1 ≠ .badRequest msg) ∧
      (∀ msg, (download db uid name form).1 ≠ .badRequest msg)) := by
  constructor
  · intro h
    unfold save download
    rcases h with h | h
    · rw [h]
      cases parseFormInt form "week" <;> exact ⟨rfl, rfl⟩
    · rw [h]
      cases parseFormInt form "year" <;> exact ⟨rfl, rfl⟩
  · intro y w hy hw
    unfold save download
    rw [hy, hw]
    constructor
    · intro msg
      cases hup : upsert_user_week db uid y w form <;> simp [hup]
    · intro msg
      cases hup : upsert_user_week db uid y w form
      · simp [hup]
      · cases hgw : get_week_dates y w with
        | none => simp [hup, hgw]
        | some p =>
          obtain ⟨days, wk⟩ := p
          simp [hup, hgw]

theorem claim_C5_location_normalization (db : DB) (uid y w : Int)
    (form : List (String × String)) (h1 : 1 ≤ y) (h2 : y ≤ 9998) :
    ∃ days wn db', get_week_dates y w = some (days, wn) ∧
      upsert_user_week db uid y w form = some db' ∧
      ∀ d ∈ days, ∃ r, db'.find? (matchKey uid d) = some r ∧
        r.location = normalizeLoc form d ∧
        (∀ v, form.lookup ("loc_" ++ dateIsoformat d) = some v →
          v ∈ LOCATIONS → r.location = v) ∧
        (∀ v, form.lookup ("loc_" ++ dateIsoformat d) = some v →
          v ∉ LOCATIONS → r.location = "") ∧
        (form.lookup ("loc_" ++ dateIsoformat d) = none → r.location = "") := by
  obtain ⟨lw, m, hlw, hlw52, hm, hgw, hm1, hm6⟩ := get_week_dates_eq y w h1 h2
  refine ⟨_, _, _, hgw, upsert_user_week_eq db uid y w form _ _ hgw, ?_⟩
  intro d hd
  refine ⟨⟨uid, d, y, max 1 (min w lw), normalizeLoc form d⟩, ?_, rfl, ?_, ?_, ?_⟩
  · exact foldl_upsert_find_mem _ uid y _ _ d db hd (week_days_nodup m)
  · intro v hv hmem
    simp only [normalizeLoc, hv, Option.getD_some]
    rw [if_pos (by simpa using hmem)]
  · intro v hv hmem
    simp only [normalizeLoc, hv, Option.getD_some]
    rw [if_neg (by simpa using hmem)]
  · intro hv
    simp only [normalizeLoc, hv, Option.getD_none]
    rfl

theorem claim_C9_upsert_frame (db : DB) (uid y w : Int)
    (form : List (String × String)) (days : List Int) (wn : Int) (db' : DB)
    (hgw : get_week_dates y w = some (days, wn))
    (hup : upsert_user_week db uid y w form = some db') :
    Frame uid days db db' := by
  rw [upsert_user_week_eq db uid y w form days wn hgw, Option.some_inj] at hup
  rw [← hup]
  exact foldl_upsert_frame days days uid y wn _ (fun x hx => hx) db

theorem downloadRow_fields (name : String) (yv wv : Int)
    (sel : List (String × String)) (idx : Nat) (d : Int) :
    (downloadRow name yv wv sel idx d).lookup "Standort"
        = some (.str (dictGet sel (dateIsoformat d) "")) ∧
    (downloadRow name yv wv sel idx d).lookup "Kalenderwoche" = some (.int wv) ∧
    (downloadRow name yv wv sel idx d).lookup "Datum" = some (.str (dateIsoformat d)) ∧
    (downloadRow name yv wv sel idx d).lookup "Wochentag" =
        some (.str ((["Montag", "Dienstag", "Mittwoch", "Donnerstag",
          "Freitag", "Samstag", "Sonntag"] : List String).getD idx "")) ∧
    (downloadRow name yv wv sel idx d).map Prod.fst =
        ["Name", "Jahr", "Kalenderwoche", "Datum", "Wochentag", "Standort"] := by
  unfold downloadRow
  refine ⟨rfl, rfl, rfl, rfl, rfl⟩

theorem download_ok (db : DB) (uid : Int) (name : String)
    (form : List (String × String)) (y w : Int) (days : List Int) (wn : Int)
    (db' : DB)
    (hy : parseFormInt form "year" = some y)
    (hw : parseFormInt form "week" = some w)
    (hgw : get_week_dates y w = some (days, wn))
    (hup : upsert_user_week db uid y w form = some db') :
    download db uid name form =
      (.ok ⟨"Arbeitsorte",
        days.enum.map (fun p => downloadRow name y wn
          (load_selections_for_user_week db' uid days) p.1 p.2),
        "Arbeitsorte_" ++ name ++ "_J" ++ toString y ++ "_KW" ++ pad2 wn ++
          ".xlsx"⟩, db') := by
  unfold download
  rw [hy, hw]
  dsimp only
  rw [hup]
  dsimp only
  rw [hgw]

/-- **C7.** A valid POST to `/download` first persists the submitted
selections via `upsert_user_week` and only then builds the export from the
reloaded table, so each of the 7 exported rows carries exactly the normalized
location just submitted for its day in `Standort`, and the normalized week in
`Kalenderwoche`. -/
theorem claim_C7_download_exports_submitted (db : DB) (uid : Int)
    (name : String) (form : List (String × String)) (y w : Int)
    (hamo : AtMostOne db)
    (hy : parseFormInt form "year" = some y)
    (hw : parseFormInt form "week" = some w)
    (h1 : 1 ≤ y) (h2 : y ≤ 9998) :
    ∃ days wn db' ef, get_week_dates y w = some (days, wn) ∧
      upsert_user_week db uid y w form = some db' ∧
      download db uid name form = (.ok ef, db') ∧
      List.Forall₂ (fun d row =>
        row.lookup "Standort" = some (.str (normalizeLoc form d)) ∧
        row.lookup "Kalenderwoche" = some (.int wn)) days ef.rows := by
  obtain ⟨lw, m, hlw, hlw52, hm, hgw, hm1, hm6⟩ := get_week_dates_eq y w h1 h2
  have hup := upsert_user_week_eq db uid y w form _ _ hgw
  set wn : Int := max 1 (min w lw) with hwn
  set days : List Int := [m, m + 1, m + 2, m + 3, m + 4, m + 5, m + 6] with hdays
  set db' : DB := days.foldl
    (fun db d => upsertRow db uid d y wn (normalizeLoc form d)) db with hdb'
  have hamo' : AtMostOne db' :=
    upsert_user_week_AtMostOne db uid y w form db' hamo hup
  have hbound : ∀ x ∈ days, 1 ≤ x ∧ x ≤ MAXORDINAL := by
    intro x hx
    rw [hdays] at hx
    simp only [List.mem_cons, List.not_mem_nil, or_false] at hx
    rcases hx with h | h | h | h | h | h | h <;> omega
  have hinj' : ∀ a b : Int, a ∈ days → b ∈ days →
      dateIsoformat a = dateIsoformat b → a = b := by
    intro a b ha hb
    exact dateIsoformat_inj a b (hbound a ha).1 (hbound a ha).2
      (hbound b hb).1 (hbound b hb).2
  have hsel : ∀ d ∈ days,
      dictGet (load_selections_for_user_week db' uid days) (dateIsoformat d) ""
        = normalizeLoc form d := by
    intro d hd
    rw [load_dictGet db' uid days d hd hinj' "" (hamo' uid d)]
    have hfind : db'.find? (matchKey uid d) =
        some ⟨uid, d, y, wn, normalizeLoc form d⟩ := by
      rw [hdb']
      exact foldl_upsert_find_mem _ uid y _ _ d db hd (hdays ▸ week_days_nodup m)
    rw [hfind]
    rfl
  refine ⟨days, wn, db', _, hgw, hup,
    download_ok db uid name form y w days wn db' hy hw hgw hup, ?_⟩
  have hmem : ∀ i : Nat, i ≤ 6 → (m + i) ∈ days := by
    intro i hi
    rw [hdays]
    interval_cases i <;> simp
  have hrows : days.enum.map (fun p => downloadRow name y wn
      (load_selections_for_user_week db' uid days) p.1 p.2) =
      [downloadRow name y wn (load_selections_for_user_week db' uid days) 0 m,
       downloadRow name y wn (load_selections_for_user_week db' uid days) 1 (m + 1),
       downloadRow name y wn (load_selections_for_user_week db' uid days) 2 (m + 2),
       downloadRow name y wn (load_selections_for_user_week db' uid days) 3 (m + 3),
       downloadRow name y wn (load_selections_for_user_week db' uid days) 4 (m + 4),
       downloadRow name y wn (load_selections_for_user_week db' uid days) 5 (m + 5),
       downloadRow name y wn (load_selections_for_user_week db' uid days) 6 (m + 6)] := by
    rw [hdays]
    rfl
  rw [hrows, hdays]
  refine .cons ?_ (.cons ?_ (.cons ?_ (.cons ?_ (.cons ?_ (.cons ?_
    (.cons ?_ .nil)))))) <;>
    refine ⟨?_, (downloadRow_fields _ _ _ _ _ _).2.1⟩
  · rw [(downloadRow_fields _ _ _ _ _ _).1,
      hsel m (by rw [show m = m + (0 : Nat) by norm_num]; exact hmem 0 (by norm_num))]
  · rw [(downloadRow_fields _ _ _ _ _ _).1, hsel (m + 1) (hmem 1 (by norm_num))]
  · rw [(downloadRow_fields _ _ _ _ _ _).1, hsel (m + 2) (hmem 2 (by norm_num))]
  · rw [(downloadRow_fields _ _ _ _ _ _).1, hsel (m + 3) (hmem 3 (by norm_num))]
  · rw [(downloadRow_fields _ _ _ _ _ _).1, hsel (m + 4) (hmem 4 (by norm_num))]
  · rw [(downloadRow_fields _ _ _ _ _ _).1, hsel (m + 5) (hmem 5 (by norm_num))]
  · rw [(downloadRow_fields _ _ _ _ _ _).1, hsel (m + 6) (hmem 6 (by norm_num))]

/-- **C8.** A valid POST to `/download` produces a single sheet
("Arbeitsorte") with exactly 7 data rows — one per day of the week in
Monday-to-Sunday order (the first day is a Monday and each row's date is the
previous one plus a day) — whose columns are exactly Name, Jahr,
Kalenderwoche, Datum, Wochentag, Standort in that order, `Wochentag` being
the German weekday name matching the row's `Datum`. -/
theorem claim_C8_download_export_shape (db : DB) (uid : Int)
    (name : String) (form : List (String × String)) (y w : Int)
    (hy : parseFormInt form "year" = some y)
    (hw : parseFormInt form "week" = some w)
    (h1 : 1 ≤ y) (h2 : y ≤ 9998) :
    ∃ days wn db' ef m, get_week_dates y w = some (days, wn) ∧
      download db uid name form = (.ok ef, db') ∧
      ef.sheet = "Arbeitsorte" ∧
      ef.rows.length = 7 ∧
      days = [m, m + 1, m + 2, m + 3, m + 4, m + 5, m + 6] ∧
      dateWeekday m = 0 ∧
      List.Forall₂ (fun d row =>
        row.map Prod.fst =
          ["Name", "Jahr", "Kalenderwoche", "Datum", "Wochentag", "Standort"] ∧
        row.lookup "Datum" = some (.str (dateIsoformat d)) ∧
        row.lookup "Wochentag" =
          some (.str (WEEKDAY_NAMES.getD (dateWeekday d).toNat "")))
        days ef.rows := by
  obtain ⟨lw, m, hlw, hlw52, hm, hgw, hm1, hm6⟩ := get_week_dates_eq y w h1 h2
  have hmod := isoweek1monday_mod y
  have hmon : m % 7 = 1 := by omega
  have hup := upsert_user_week_eq db uid y w form _ _ hgw
  set wn : Int := max 1 (min w lw) with hwn
  set days : List Int := [m, m + 1, m + 2, m + 3, m + 4, m + 5, m + 6] with hdays
  set db' : DB := days.foldl
    (fun db d => upsertRow db uid d y wn (normalizeLoc form d)) db with hdb'
  refine ⟨days, wn, db', _, m, hgw,
    download_ok db uid name form y w days wn db' hy hw hgw hup, rfl, ?_, rfl,
    by unfold dateWeekday; omega, ?_⟩
  · rw [hdays]
    rfl
  have hwd : ∀ k : Int, 0 ≤ k → k ≤ 6 → dateWeekday (m + k) = k := by
    intro k hk1 hk2
    unfold dateWeekday
    omega
  have hrows : days.enum.map (fun p => downloadRow name y wn
      (load_selections_for_user_week db' uid days) p.1 p.2) =
      [downloadRow name y wn (load_selections_for_user_week db' uid days) 0 m,
       downloadRow name y wn (load_selections_for_user_week db' uid days) 1 (m + 1),
       downloadRow name y wn (load_selections_for_user_week db' uid days) 2 (m + 2),
       downloadRow name y wn (load_selections_for_user_week db' uid days) 3 (m + 3),
       downloadRow name y wn (load_selections_for_user_week db' uid days) 4 (m + 4),
       downloadRow name y wn (load_selections_for_user_week db' uid days) 5 (m + 5),
       downloadRow name y wn (load_selections_for_user_week db' uid days) 6 (m + 6)] := by
    rw [hdays]
    rfl
  rw [hrows, hdays]
  refine .cons ?_ (.cons ?_ (.cons ?_ (.cons ?_ (.cons ?_ (.cons ?_
    (.cons ?_ .nil)))))) <;>
    refine ⟨(downloadRow_fields _ _ _ _ _ _).2.2.2.2,
      (downloadRow_fields _ _ _ _ _ _).2.2.1, ?_⟩
  · rw [(downloadRow_fields _ _ _ _ _ _).2.2.2.1,
      show dateWeekday m = 0 from by unfold dateWeekday; omega]
    rfl
  · rw [(downloadRow_fields _ _ _ _ _ _).2.2.2.1, hwd 1 (by norm_num) (by norm_num)]
    rfl
  · rw [(downloadRow_fields _ _ _ _ _ _).2.2.2.1, hwd 2 (by norm_num) (by norm_num)]
    rfl
  · rw [(downloadRow_fields _ _ _ _ _ _).2.2.2.1, hwd 3 (by norm_num) (by norm_num)]
    rfl
  · rw [(downloadRow_fields _ _ _ _ _ _).2.2.2.1, hwd 4 (by norm_num) (by norm_num)]
    rfl
  · rw [(downloadRow_fields _ _ _ _ _ _).2.2.2.1, hwd 5 (by norm_num) (by norm_num)]
    rfl
  · rw [(downloadRow_fields _ _ _ _ _ _).2.2.2.1, hwd 6 (by norm_num) (by norm_num)]
    rfl


theorem claim_C4_witness :
    (save [] 1 [("week", "5")] =
        (.badRequest "Ungültige Kalenderangabe.", []) ∧
      download [] 1 "N" [("week", "5")] =
        (.badRequest "Ungültige Kalenderangabe.", [])) ∧
    (∀ msg, (save [] 1 [("year", "2024"), ("week", "5")]).1 ≠
      HandlerResult.badRequest msg) :=
  ⟨(claim_C4_invalid_year_week_400 [] 1 "N" [("week", "5")]).1
      (Or.inl (by decide)),
   fun msg => ((claim_C4_invalid_year_week_400 [] 1 "N"
      [("year", "2024"), ("week", "5")]).2 2024 5 (by decide) (by decide)).1 msg⟩

theorem claim_C5_witness :
    (1 : Int) ≤ 2024 ∧ (2024 : Int) ≤ 9998 ∧
    (∃ days wn db', get_week_dates 2024 1 = some (days, wn) ∧
      upsert_user_week [] 7 2024 1 [("loc_2024-01-01", "Office"),
        ("loc_2024-01-02", "Nonsense")] = some db' ∧
      ∀ d ∈ days, ∃ r, db'.find? (matchKey 7 d) = some r ∧
        r.location = normalizeLoc [("loc_2024-01-01", "Office"),
          ("loc_2024-01-02", "Nonsense")] d ∧
        (∀ v, List.lookup ("loc_" ++ dateIsoformat d)
            [("loc_2024-01-01", "Office"), ("loc_2024-01-02", "Nonsense")] = some v →
          v ∈ LOCATIONS → r.location = v) ∧
        (∀ v, List.lookup ("loc_" ++ dateIsoformat d)
            [("loc_2024-01-01", "Office"), ("loc_2024-01-02", "Nonsense")] = some v →
          v ∉ LOCATIONS → r.location = "") ∧
        (List.lookup ("loc_" ++ dateIsoformat d)
            [("loc_2024-01-01", "Office"), ("loc_2024-01-02", "Nonsense")] = none →
          r.location = "")) :=
  ⟨by norm_num, by norm_num,
    claim_C5_location_normalization [] 7 2024 1
      [("loc_2024-01-01", "Office"), ("loc_2024-01-02", "Nonsense")]
      (by norm_num) (by norm_num)⟩

theorem claim_C7_witness :
    AtMostOne [] ∧
    parseFormInt [("year", "2024"), ("week", "1"), ("loc_2024-01-01", "Office")]
      "year" = some 2024 ∧
    parseFormInt [("year", "2024"), ("week", "1"), ("loc_2024-01-01", "Office")]
      "week" = some 1 ∧
    (∃ days wn db' ef, get_week_dates 2024 1 = some (days, wn) ∧
      upsert_user_week [] 7 2024 1 [("year", "2024"), ("week", "1"),
        ("loc_2024-01-01", "Office")] = some db' ∧
      download [] 7 "Jakob" [("year", "2024"), ("week", "1"),
        ("loc_2024-01-01", "Office")] = (.ok ef, db') ∧
      List.Forall₂ (fun d row =>
        row.lookup "Standort" = some (.str (normalizeLoc [("year", "2024"),
          ("week", "1"), ("loc_2024-01-01", "Office")] d)) ∧
        row.lookup "Kalenderwoche" = some (.int wn)) days ef.rows) :=
  ⟨fun _ _ => by simp, by decide, by decide,
    claim_C7_download_exports_submitted [] 7 "Jakob"
      [("year", "2024"), ("week", "1"), ("loc_2024-01-01", "Office")] 2024 1
      (fun _ _ => by simp) (by decide) (by decide) (by norm_num) (by norm_num)⟩

theorem claim_C8_witness :
    parseFormInt [("year", "2024"), ("week", "1")] "year" = some 2024 ∧
    parseFormInt [("year", "2024"), ("week", "1")] "week" = some 1 ∧
    (∃ days wn db' ef m, get_week_dates 2024 1 = some (days, wn) ∧
      download [] 7 "Jakob" [("year", "2024"), ("week", "1")] = (.ok ef, db') ∧
      ef.sheet = "Arbeitsorte" ∧
      ef.rows.length = 7 ∧
      days = [m, m + 1, m + 2, m + 3, m + 4, m + 5, m + 6] ∧
      dateWeekday m = 0 ∧
      List.Forall₂ (fun d row =>
        row.map Prod.fst =
          ["Name", "Jahr", "Kalenderwoche", "Datum", "Wochentag", "Standort"] ∧
        row.lookup "Datum" = some (.str (dateIsoformat d)) ∧
        row.lookup "Wochentag" =
          some (.str (WEEKDAY_NAMES.getD (dateWeekday d).toNat "")))
        days ef.rows) :=
  ⟨by decide, by decide,
    claim_C8_download_export_shape [] 7 "Jakob" [("year", "2024"), ("week", "1")]
      2024 1 (by decide) (by decide) (by norm_num) (by norm_num)⟩

theorem claim_C9_witness :
    get_week_dates 2024 1 =
      some ([738886, 738887, 738888, 738889, 738890, 738891, 738892], 1) ∧
    upsert_user_week [] 1 2024 1 [] =
      some [⟨1, 738886, 2024, 1, ""⟩, ⟨1, 738887, 2024, 1, ""⟩,
        ⟨1, 738888, 2024, 1, ""⟩, ⟨1, 738889, 2024, 1, ""⟩,
        ⟨1, 738890, 2024, 1, ""⟩, ⟨1, 738891, 2024, 1, ""⟩,
        ⟨1, 738892, 2024, 1, ""⟩] ∧
    Frame 1 [738886, 738887, 738888, 738889, 738890, 738891, 738892] []
      [⟨1, 738886, 2024, 1, ""⟩, ⟨1, 738887, 2024, 1, ""⟩,
       ⟨1, 738888, 2024, 1, ""⟩, ⟨1, 738889, 2024, 1, ""⟩,
       ⟨1, 738890, 2024, 1, ""⟩, ⟨1, 738891, 2024, 1, ""⟩,
       ⟨1, 738892, 2024, 1, ""⟩] :=
  ⟨by decide, by decide,
    claim_C9_upsert_frame [] 1 2024 1 [] _ 1 _ (by decide) (by decide)⟩

theorem claim_C10_witness :
    (2 : Int) ≤ 2024 ∧ (2024 : Int) ≤ 9998 ∧
    iso_last_week 2024 = some 52 ∧ (1 : Int) ≤ 1 ∧ (1 : Int) ≤ 52 ∧
    (∃ pv nx lwp lwn, prev_next 2024 1 = some (pv, nx) ∧
      iso_last_week pv.1 = some lwp ∧ 1 ≤ pv.2 ∧ pv.2 ≤ lwp ∧
      iso_last_week nx.1 = some lwn ∧ 1 ≤ nx.2 ∧ nx.2 ≤ lwn ∧
      next_step pv.1 pv.2 = some (2024, 1)) :=
  ⟨by norm_num, by norm_num, by decide, by norm_num, by norm_num,
    claim_C10_prev_next_valid_self_inverse 2024 1 52 (by norm_num) (by norm_num)
      (by decide) (by norm_num) (by norm_num)⟩

end SpecApp
